import Mathlib

/-!
Verification development for the Go_MuteCut repository: a command-line
front end that trims, mutes, or extracts audio from a video file by
invoking an external encoder (ffmpeg).  The Go source (src/main.go and
the audio-extraction file) is shallowly embedded below.  Go float64
values are modelled by exact rationals: every value occurring in the
properties under study (whole seconds, sums of products with 60) is
exactly representable in float64, so the rational model agrees with the
Go semantics on all of them.  Go strings are modelled as Lean strings
(sequences of characters; the properties under study only involve ASCII
data, where the byte/rune distinction is invisible).
-/

/-- Embeds the Go struct Config (src/main.go lines 15-33). -/
structure Config where
  InputFile : String
  OutputFile : String
  MaxVideoLen : ℚ
  MaxFileSize : ℤ
  Preset : String
  CRF : ℤ
  MuteStart : String
  MuteEnd : String
  StartTime : String
  EndTime : String
  FfmpegBin : String
  FfprobeBin : String
  Verbose : Bool
  ExtractMP3 : Bool
  deriving Repr, DecidableEq

/-- Splits a leading run of decimal digits from a character list.
Returns the digits and the remaining characters. -/
def takeDigits : List Char → List Char × List Char
  | [] => ([], [])
  | c :: rest =>
    if c.isDigit then
      let (ds, r) := takeDigits rest
      (c :: ds, r)
    else ([], c :: rest)

/-- Numeric value of a list of decimal digit characters. -/
def digitsVal (ds : List Char) : ℕ :=
  ds.foldl (fun a c => a * 10 + (c.toNat - '0'.toNat)) 0

/-- Consumes an optional leading sign; returns (negative?, rest). -/
def parseSign : List Char → Bool × List Char
  | '-' :: r => (true, r)
  | '+' :: r => (false, r)
  | r => (false, r)

/-- Recognises the decimal-literal syntax accepted by Go
strconv.ParseFloat (called at src/main.go lines 212 and 222): optional
sign, integer digits and/or a fraction after a decimal point, then an
optional decimal exponent; the whole string must be consumed.  The
exact value is returned as a scaled integer pair (n, k) denoting
n / 10^k.  The float-specific forms (inf, NaN, hexadecimal floats,
digit-separating underscores) have no rational value and do not occur
in the inputs under study, so they are outside the model.  Returns none
exactly when Go returns a non-nil error. -/
def parseGoFloatRep (s : String) : Option (ℤ × ℕ) :=
  let (neg, cs) := parseSign s.toList
  let (ip, cs) := takeDigits cs
  let (fp, cs) :=
    match cs with
    | '.' :: r => takeDigits r
    | _ => ([], cs)
  if ip.isEmpty && fp.isEmpty then none
  else
    let n : ℕ := digitsVal ip * 10 ^ fp.length + digitsVal fp
    let m : ℤ := if neg then -(n : ℤ) else (n : ℤ)
    match cs with
    | [] => some (m, fp.length)
    | e :: r =>
      if e = 'e' ∨ e = 'E' then
        let (eneg, r) := parseSign r
        let (ed, r) := takeDigits r
        if ed.isEmpty || !r.isEmpty then none
        else
          let ex := digitsVal ed
          if eneg then some (m, fp.length + ex)
          else if ex ≤ fp.length then some (m, fp.length - ex)
          else some (m * 10 ^ (ex - fp.length), 0)
      else none

/-- The rational value of Go strconv.ParseFloat on success, none on
error (src/main.go lines 212 and 222). -/
def parseGoFloat (s : String) : Option ℚ :=
  (parseGoFloatRep s).map fun p => (p.1 : ℚ) / (10 : ℚ) ^ p.2

/-- Models Go strings.Split for a one-character separator (the call
site src/main.go line 217 always uses ":"): splits at every occurrence
of the separator, keeping empty segments, and returns one (possibly
empty) segment even for the empty string. -/
def splitOnChar (c : Char) : List Char → List (List Char)
  | [] => [[]]
  | x :: rest =>
    if x = c then [] :: splitOnChar c rest
    else
      match splitOnChar c rest with
      | h :: t => (x :: h) :: t
      | [] => [[x]]

/-- Embeds the loop of parseTimeToSeconds (src/main.go lines 221-225):
the list argument is the reversed segment list and the accumulator the
running multiplier (1, then 60, then 3600, ...); a segment that fails
to parse contributes zero (Go discards the ParseFloat error). -/
def sumParts : List String → ℚ → ℚ
  | [], _ => 0
  | p :: rest, mult => ((parseGoFloat p).getD 0) * mult + sumParts rest (mult * 60)

/-- Embeds parseTimeToSeconds (src/main.go lines 210-227): try a plain
decimal number first; otherwise split on ":" and sum the segments from
the right with multipliers 1, 60, 3600, ... -/
def parseTimeToSeconds (ts : String) : ℚ :=
  match parseGoFloat ts with
  | some v => v
  | none => sumParts ((splitOnChar ':' ts.toList).map String.mk).reverse 1

/-- Embeds getInputArgs (src/main.go lines 171-181), mirroring the Go
appends: seek-start flag and value when StartTime is set, seek-end flag
and value when EndTime is set, then always the input flag and path. -/
def getInputArgs (cfg : Config) : List String :=
  let args : List String := []
  let args := if cfg.StartTime ≠ "" then args ++ ["-ss", cfg.StartTime] else args
  let args := if cfg.EndTime ≠ "" then args ++ ["-to", cfg.EndTime] else args
  args ++ ["-i", cfg.InputFile]

/-- Rounds q*1000 to an integer, half away from zero on the magnitude.
Models the decimal rounding performed by Go fmt.Sprintf("%.3f", ...);
exact on every value whose thousandfold is an integer, which covers all
values under study (rounding of exact .0005 ties can differ from the
binary float64 rendering and is outside the model). -/
def round3 (q : ℚ) : ℤ :=
  if q < 0 then -⌊-q * 1000 + 1 / 2⌋ else ⌊q * 1000 + 1 / 2⌋

/-- Left-pads a string with zeros to width 3. -/
def padZeros3 (s : String) : String :=
  if s.length < 3 then String.mk (List.replicate (3 - s.length) '0') ++ s else s

/-- Renders a rational with exactly three digits after the decimal
point, modelling Go fmt.Sprintf("%.3f", ...) at src/main.go line 193. -/
def fmtF3 (q : ℚ) : String :=
  let m := round3 q
  let sign := if m < 0 then "-" else ""
  sign ++ toString (m.natAbs / 1000) ++ "." ++ padZeros3 (toString (m.natAbs % 1000))

/-- Embeds the filter-chain construction of simpleCut (src/main.go
lines 187-194): one volume filter when both mute boundaries are
non-empty, none otherwise. -/
def muteFilters (cfg : Config) : List String :=
  if cfg.MuteStart ≠ "" ∧ cfg.MuteEnd ≠ "" then
    ["volume=0:enable=\x27between(t," ++ fmtF3 (parseTimeToSeconds cfg.MuteStart)
      ++ "," ++ fmtF3 (parseTimeToSeconds cfg.MuteEnd) ++ ")\x27"]
  else []

/-- Embeds the argument list passed to runFFmpeg by simpleCut
(src/main.go lines 183-206): input args, video codec/preset/quality,
audio codec/bitrate, the filter flag when the filter chain is
non-empty, then overwrite flag and output path. -/
def simpleCutArgs (cfg : Config) : List String :=
  let args := getInputArgs cfg ++
    ["-c:v", "libx264", "-preset", cfg.Preset, "-crf", toString cfg.CRF,
     "-c:a", "aac", "-b:a", "192k"]
  let args := if (muteFilters cfg).length > 0 then
      args ++ ["-af", String.intercalate "," (muteFilters cfg)]
    else args
  args ++ ["-y", cfg.OutputFile]

/-- Models Go filepath.Ext scanning from the end of the path: collects
characters until a dot (returning the dot and what follows) or a path
separator or the start of the string (returning nothing). -/
def extRevAux : List Char → List Char → Option (List Char)
  | [], _ => none
  | c :: rest, acc =>
    if c = '/' then none
    else if c = '.' then some (c :: acc)
    else extRevAux rest (c :: acc)

/-- Models Go filepath.Ext (called at src/main.go line 126): the suffix
from the final dot in the final path element, empty when that element
has no dot.  The path separator is modelled as the slash. -/
def goExt (path : String) : String :=
  match extRevAux path.toList.reverse [] with
  | some l => String.mk l
  | none => ""

/-- Models Go strings.TrimSuffix (called at src/main.go line 127):
drops the suffix when present, otherwise returns the string unchanged. -/
def trimSuffix (s suffix : String) : String :=
  if suffix.toList.isSuffixOf s.toList then
    String.mk (s.toList.take (s.toList.length - suffix.toList.length))
  else s

/-- Embeds the default-output-path computation of main (src/main.go
lines 124-134), used when no output path is given: insert "_cleaned",
plus "_muted" when the mute-start flag is non-empty, between the base
name and the extension. -/
def defaultOutputFile (input muteStart : String) : String :=
  let ext := goExt input
  let base := trimSuffix input ext
  let suffix := "_cleaned" ++ (if muteStart ≠ "" then "_muted" else "")
  base ++ suffix ++ ext

/-- Models Go strings.ToLower on ASCII letters (called in
src/unnamed/part_001 line 18; the suffix being compared there is pure
ASCII, where this model agrees with the Unicode mapping). -/
def toLowerGo (s : String) : String :=
  String.mk (s.toList.map fun c =>
    if 'A' ≤ c ∧ c ≤ 'Z' then Char.ofNat (c.toNat + 32) else c)

/-- Models Go strings.HasSuffix. -/
def hasSuffixGo (s suffix : String) : Bool :=
  suffix.toList.isSuffixOf s.toList

/-- Embeds the output-path normalization of extractAudio
(src/unnamed/part_001 lines 11-22): when no output is set, replace the
input extension with ".mp3"; otherwise append ".mp3" unless the
lowercased output already ends in ".mp3". -/
def extractOutput (cfg : Config) : String :=
  if cfg.OutputFile = "" then
    trimSuffix cfg.InputFile (goExt cfg.InputFile) ++ ".mp3"
  else if !hasSuffixGo (toLowerGo cfg.OutputFile) ".mp3" then
    cfg.OutputFile ++ ".mp3"
  else cfg.OutputFile

/-- Embeds the argument list passed to runFFmpeg by extractAudio
(src/unnamed/part_001 lines 28-36). -/
def extractAudioArgs (cfg : Config) : List String :=
  ["-i", cfg.InputFile, "-vn", "-acodec", "libmp3lame", "-q:a", "2",
   "-y", extractOutput cfg]

/-- The environment resolveBinary reads (src/main.go lines 243-268):
the directory of the running executable (filepath.Dir of
os.Executable, none when os.Executable errors), the working directory
(os.Getwd, none on error), which paths os.Stat finds, and the result
of exec.LookPath over the system search path (none on error; Go then
returns the empty path). -/
structure FS where
  exeDir : Option String
  cwd : Option String
  statOk : String → Bool
  lookPath : String → Option String

/-- Models filepath.Join of a cleaned directory and a relative name on
a slash-separated platform. -/
def joinPath (a b : String) : String := a ++ "/" ++ b

/-- Embeds resolveBinary (src/main.go lines 243-268): under the
executable's directory, then under the working directory, try bin/name
and bin/name.exe and return the first path os.Stat finds; fall back to
the system search path, whose failure yields the empty string. -/
def resolveBinary (fs : FS) (name : String) : String :=
  let fromExe : Option String :=
    match fs.exeDir with
    | some d =>
      let binPath := joinPath (joinPath d "bin") name
      if fs.statOk binPath then some binPath
      else if fs.statOk (binPath ++ ".exe") then some (binPath ++ ".exe")
      else none
    | none => none
  match fromExe with
  | some p => p
  | none =>
    let fromCwd : Option String :=
      match fs.cwd with
      | some d =>
        let binPath := joinPath (joinPath d "bin") name
        if fs.statOk binPath then some binPath
        else if fs.statOk (binPath ++ ".exe") then some (binPath ++ ".exe")
        else none
      | none => none
    match fromCwd with
    | some p => p
    | none =>
      match fs.lookPath name with
      | some p => p
      | none => ""

/-- The ordered candidate paths resolveBinary tries against os.Stat
before falling back to the system search path. -/
def binCandidates (fs : FS) (name : String) : List String :=
  (match fs.exeDir with
   | some d => [joinPath (joinPath d "bin") name,
                joinPath (joinPath d "bin") name ++ ".exe"]
   | none => []) ++
  (match fs.cwd with
   | some d => [joinPath (joinPath d "bin") name,
                joinPath (joinPath d "bin") name ++ ".exe"]
   | none => [])

/-- Outcome of one tool invocation: normal return, or process
termination through os.Exit with the given code. -/
inductive RunOutcome
  | ok
  | fatalExit (code : ℕ)
  deriving Repr, DecidableEq

/-- Embeds the control flow of runFFmpeg (src/main.go lines 229-241)
as a function of the child's exit status: cmd.Run returns a non-nil
error exactly when the child exits non-zero, and then an error message
is printed (first component) and the tool terminates via os.Exit(1). -/
def runFFmpeg (childExit : ℕ) : Bool × RunOutcome :=
  if childExit ≠ 0 then (true, .fatalExit 1) else (false, .ok)

/-- C1: the timestamp parser maps "90" to 90, "01:30" to 90 and
"01:00:00" to 3600 seconds. -/
theorem parseTime_examples :
    parseTimeToSeconds "90" = 90 ∧
    parseTimeToSeconds "01:30" = 90 ∧
    parseTimeToSeconds "01:00:00" = 3600 := by
  have h90 : parseGoFloatRep "90" = some (90, 0) := by decide
  have h130 : parseGoFloatRep "01:30" = none := by decide
  have h1h : parseGoFloatRep "01:00:00" = none := by decide
  have hs130 : (splitOnChar ':' "01:30".toList).map String.mk = ["01", "30"] := by
    decide
  have hs1h : (splitOnChar ':' "01:00:00".toList).map String.mk =
      ["01", "00", "00"] := by decide
  have p01 : parseGoFloatRep "01" = some (1, 0) := by decide
  have p30 : parseGoFloatRep "30" = some (30, 0) := by decide
  have p00 : parseGoFloatRep "00" = some (0, 0) := by decide
  refine ⟨?_, ?_, ?_⟩
  · simp [parseTimeToSeconds, parseGoFloat, h90]
  · simp [parseTimeToSeconds, parseGoFloat, h130, hs130, sumParts, p01, p30]
    norm_num
  · simp [parseTimeToSeconds, parseGoFloat, h1h, hs1h, sumParts, p01, p00]
    norm_num

/-- C8: in trim/mute mode the input arguments are exactly the
seek-start flag and value when a start boundary is set, then the
seek-end flag and value when an end boundary is set, then always the
input flag and path, in that order. -/
theorem getInputArgs_spec (cfg : Config) :
    getInputArgs cfg =
      (if cfg.StartTime ≠ "" then ["-ss", cfg.StartTime] else []) ++
      (if cfg.EndTime ≠ "" then ["-to", cfg.EndTime] else []) ++
      ["-i", cfg.InputFile] := by
  simp only [getInputArgs]
  by_cases h1 : cfg.StartTime = "" <;> by_cases h2 : cfg.EndTime = "" <;>
    simp [h1, h2]

/-- C9: the argument lists are deterministic functions of the
Configuration: equal Configurations produce equal argument sequences. -/
theorem argBuilder_deterministic (c₁ c₂ : Config) (h : c₁ = c₂) :
    simpleCutArgs c₁ = simpleCutArgs c₂ ∧
    getInputArgs c₁ = getInputArgs c₂ ∧
    extractAudioArgs c₁ = extractAudioArgs c₂ := by
  subst h
  exact ⟨rfl, rfl, rfl⟩

/-- Witness for C9 at a concrete Configuration. -/
theorem argBuilder_deterministic_witness :
    simpleCutArgs ⟨"a.mp4", "b.mp4", 0, 0, "medium", 23, "", "", "", "", "", "", false, false⟩ =
      simpleCutArgs ⟨"a.mp4", "b.mp4", 0, 0, "medium", 23, "", "", "", "", "", "", false, false⟩ ∧
    getInputArgs ⟨"a.mp4", "b.mp4", 0, 0, "medium", 23, "", "", "", "", "", "", false, false⟩ =
      getInputArgs ⟨"a.mp4", "b.mp4", 0, 0, "medium", 23, "", "", "", "", "", "", false, false⟩ ∧
    extractAudioArgs ⟨"a.mp4", "b.mp4", 0, 0, "medium", 23, "", "", "", "", "", "", false, false⟩ =
      extractAudioArgs ⟨"a.mp4", "b.mp4", 0, 0, "medium", 23, "", "", "", "", "", "", false, false⟩ :=
  argBuilder_deterministic _ _ rfl

/-- C7 counterexample: when the encoder exits with code 2 the tool
terminates through os.Exit(1), so the encoder's exit code does not
propagate as the tool's exit code. -/
theorem runFFmpeg_no_code_propagation :
    (runFFmpeg 2).2 = RunOutcome.fatalExit 1 ∧
    (runFFmpeg 2).2 ≠ RunOutcome.fatalExit 2 := by
  decide

/-- C7 amended: when the encoder exits non-zero the tool reports the
failure and terminates immediately with the fixed exit code 1,
whatever the encoder's exit code was; no recovery or retry occurs. -/
theorem runFFmpeg_fatal_on_nonzero (c : ℕ) (h : c ≠ 0) :
    runFFmpeg c = (true, RunOutcome.fatalExit 1) := by
  simp [runFFmpeg, h]

/-- Witness for the amended C7 at encoder exit code 3. -/
theorem runFFmpeg_fatal_on_nonzero_witness :
    runFFmpeg 3 = (true, RunOutcome.fatalExit 1) :=
  runFFmpeg_fatal_on_nonzero 3 (by decide)

/-- C6: resolveBinary returns the first candidate that os.Stat finds,
trying the bare and the .exe name under the executable's bin directory
and then under the working directory's bin directory, in that order;
when no candidate exists it falls back to the system search path, and
when that also fails it returns the empty string. -/
theorem resolveBinary_spec (fs : FS) (name : String) :
    resolveBinary fs name =
      ((binCandidates fs name).find? fs.statOk).getD
        ((fs.lookPath name).getD "") := by
  have find2 : ∀ (st : String → Bool) (a b : String) (l : List String),
      List.find? st (a :: b :: l) =
        if st a then some a else if st b then some b else List.find? st l := by
    intro st a b l
    by_cases h1 : st a <;> by_cases h2 : st b <;> simp [List.find?, h1, h2]
  unfold resolveBinary binCandidates
  cases hE : fs.exeDir with
  | none =>
    cases hC : fs.cwd with
    | none =>
      cases hL : fs.lookPath name <;> simp [List.find?]
    | some d =>
      simp only [List.nil_append]
      rw [find2]
      by_cases h1 : fs.statOk (joinPath (joinPath d "bin") name) <;>
        by_cases h2 : fs.statOk (joinPath (joinPath d "bin") name ++ ".exe") <;>
        cases hL : fs.lookPath name <;>
        simp [List.find?, h1, h2]
  | some d =>
    by_cases h1 : fs.statOk (joinPath (joinPath d "bin") name) <;>
      by_cases h2 : fs.statOk (joinPath (joinPath d "bin") name ++ ".exe")
    all_goals cases hC : fs.cwd with
    | none =>
      simp only [List.append_nil]
      rw [find2]
      cases hL : fs.lookPath name <;> simp [List.find?, h1, h2]
    | some d' =>
      simp only [List.cons_append, List.nil_append]
      rw [find2, find2]
      by_cases h3 : fs.statOk (joinPath (joinPath d' "bin") name) <;>
        by_cases h4 : fs.statOk (joinPath (joinPath d' "bin") name ++ ".exe") <;>
        cases hL : fs.lookPath name <;>
        simp [List.find?, h1, h2, h3, h4]

/-- Reassociation of string append over the list constructor. -/
theorem stringMkAppend (a b : List Char) :
    String.mk a ++ String.mk b = String.mk (a ++ b) := rfl

/-- Rebuilding a string from its character list is the identity. -/
theorem stringMkToList (s : String) : String.mk s.toList = s := rfl

/-- The character list of a rebuilt string. -/
theorem stringToListMk (l : List Char) : (String.mk l).toList = l := rfl

/-- The extension computed by extRevAux is a suffix of the scanned
characters followed by the accumulator. -/
theorem extRevAux_suffix (l : List Char) :
    ∀ acc e : List Char, extRevAux l acc = some e →
      ∃ pre, l.reverse ++ acc = pre ++ e := by
  induction l with
  | nil => intro acc e h; simp [extRevAux] at h
  | cons c rest ih =>
    intro acc e h
    simp only [extRevAux] at h
    by_cases hc : c = '/'
    · simp [hc] at h
    · by_cases hd : c = '.'
      · rw [if_neg hc, if_pos hd] at h
        obtain rfl : c :: acc = e := Option.some.inj h
        exact ⟨rest.reverse, by simp⟩
      · rw [if_neg hc, if_neg hd] at h
        obtain ⟨pre, hp⟩ := ih (c :: acc) e h
        exact ⟨pre, by simpa using hp⟩

/-- The base name and extension reassemble to the input path. -/
theorem trimSuffix_goExt (input : String) :
    input = trimSuffix input (goExt input) ++ goExt input := by
  cases h : extRevAux input.toList.reverse [] with
  | none =>
    have hg : goExt input = "" := by simp only [goExt, h]
    have hnil : ([] : List Char).isSuffixOf input.toList = true :=
      List.isSuffixOf_iff_suffix.mpr List.nil_suffix
    have ht : trimSuffix input "" = input := by
      have h0 : "".toList = ([] : List Char) := rfl
      simp only [trimSuffix, h0, hnil, if_true, List.length_nil,
        Nat.sub_zero, List.take_length]
      exact stringMkToList input
    rw [hg, ht]
    exact (String.append_empty input).symm
  | some e =>
    obtain ⟨pre, hp⟩ := extRevAux_suffix _ [] e h
    rw [List.reverse_reverse, List.append_nil] at hp
    have hsfx : e.isSuffixOf input.toList = true :=
      List.isSuffixOf_iff_suffix.mpr (by rw [hp]; exact List.suffix_append pre e)
    have hg : goExt input = String.mk e := by simp only [goExt, h]
    have htrim : trimSuffix input (String.mk e) = String.mk pre := by
      simp only [trimSuffix, stringToListMk, hsfx, if_true]
      have hlen : input.toList.length - e.length = pre.length := by
        rw [hp]; simp
      rw [hlen, hp, List.take_left]
    rw [hg, htrim, stringMkAppend, ← hp, stringMkToList]

/-- C3: when no output path is given, the default output path inserts
"_cleaned" (plus "_muted" when the mute-start boundary is set) between
the base name and the extension of the input path; in particular
"a.mp4" yields "a_cleaned.mp4" without mute and "a_cleaned_muted.mp4"
with mute. -/
theorem defaultOutput_spec :
    (∀ input muteStart : String, ∃ base,
        input = base ++ goExt input ∧
        defaultOutputFile input muteStart =
          base ++ "_cleaned" ++ (if muteStart ≠ "" then "_muted" else "") ++
            goExt input) ∧
    defaultOutputFile "a.mp4" "" = "a_cleaned.mp4" ∧
    defaultOutputFile "a.mp4" "5" = "a_cleaned_muted.mp4" := by
  refine ⟨?_, by decide, by decide⟩
  intro input muteStart
  refine ⟨trimSuffix input (goExt input), trimSuffix_goExt input, ?_⟩
  simp [defaultOutputFile, String.append_assoc]

/-- String append distributes to character lists. -/
theorem toListAppend (a b : String) :
    (a ++ b).toList = a.toList ++ b.toList := String.data_append a b

/-- ASCII lowercasing distributes over string append. -/
theorem toLowerGo_append (a b : String) :
    toLowerGo (a ++ b) = toLowerGo a ++ toLowerGo b := by
  simp only [toLowerGo, toListAppend, List.map_append, stringMkAppend]

/-- A string obtained by appending a suffix has that suffix. -/
theorem hasSuffixGo_append (s t : String) : hasSuffixGo (s ++ t) t = true := by
  simp only [hasSuffixGo, toListAppend]
  exact List.isSuffixOf_iff_suffix.mpr (List.suffix_append _ _)

/-- C4: in extract-audio mode the argument list strips video with the
no-video flag, selects the mp3 audio codec, sets the fixed quality
parameter 2, and the output path used ends (case-insensitively) in the
audio extension ".mp3". -/
theorem extractAudio_spec (cfg : Config) :
    "-vn" ∈ extractAudioArgs cfg ∧
    "-acodec" ∈ extractAudioArgs cfg ∧ "libmp3lame" ∈ extractAudioArgs cfg ∧
    "-q:a" ∈ extractAudioArgs cfg ∧ "2" ∈ extractAudioArgs cfg ∧
    extractOutput cfg ∈ extractAudioArgs cfg ∧
    hasSuffixGo (toLowerGo (extractOutput cfg)) ".mp3" = true := by
  refine ⟨by simp [extractAudioArgs], by simp [extractAudioArgs],
    by simp [extractAudioArgs], by simp [extractAudioArgs],
    by simp [extractAudioArgs], by simp [extractAudioArgs], ?_⟩
  unfold extractOutput
  by_cases h0 : cfg.OutputFile = ""
  · rw [if_pos h0, toLowerGo_append,
      show toLowerGo ".mp3" = ".mp3" from by decide]
    exact hasSuffixGo_append _ _
  · rw [if_neg h0]
    rcases Bool.eq_false_or_eq_true
        (hasSuffixGo (toLowerGo cfg.OutputFile) ".mp3") with hs | hs
    · rw [if_neg (by simp [hs])]
      exact hs
    · rw [if_pos (by simp [hs]), toLowerGo_append,
        show toLowerGo ".mp3" = ".mp3" from by decide]
      exact hasSuffixGo_append _ _

/-- C10: with a mute-start boundary set and an empty mute-end boundary,
the filter chain stays empty, so the argument list carries no filter
flag, yet the default output name still receives the "_muted" suffix. -/
theorem muteStartOnly_spec (cfg : Config) (input : String)
    (h1 : cfg.MuteStart ≠ "") (h2 : cfg.MuteEnd = "") :
    muteFilters cfg = [] ∧
    simpleCutArgs cfg = getInputArgs cfg ++
      ["-c:v", "libx264", "-preset", cfg.Preset, "-crf", toString cfg.CRF,
       "-c:a", "aac", "-b:a", "192k", "-y", cfg.OutputFile] ∧
    defaultOutputFile input cfg.MuteStart =
      trimSuffix input (goExt input) ++ "_cleaned_muted" ++ goExt input := by
  have hf : muteFilters cfg = [] := by simp [muteFilters, h2]
  refine ⟨hf, ?_, ?_⟩
  · simp [simpleCutArgs, hf]
  · have hmu : (if cfg.MuteStart ≠ "" then "_muted" else "") = "_muted" := if_pos h1
    simp only [defaultOutputFile, hmu]
    congr 1

/-- Concrete Configuration for the C10 witness: mute-start set,
mute-end empty. -/
def cfgC10 : Config :=
  ⟨"a.mp4", "o.mp4", 0, 0, "medium", 23, "5", "", "", "", "", "", false, false⟩

/-- Witness for C10 at a concrete Configuration and input path. -/
theorem muteStartOnly_spec_witness :
    muteFilters cfgC10 = [] ∧
    simpleCutArgs cfgC10 = getInputArgs cfgC10 ++
      ["-c:v", "libx264", "-preset", cfgC10.Preset, "-crf", toString cfgC10.CRF,
       "-c:a", "aac", "-b:a", "192k", "-y", cfgC10.OutputFile] ∧
    defaultOutputFile "a.mp4" cfgC10.MuteStart =
      trimSuffix "a.mp4" (goExt "a.mp4") ++ "_cleaned_muted" ++ goExt "a.mp4" :=
  muteStartOnly_spec cfgC10 "a.mp4" (by decide) rfl

/-- Joining a one-element list needs no separator. -/
theorem intercalateSingleton (s x : String) : String.intercalate s [x] = x := rfl

/-- The timestamp parser on the plain number "10". -/
theorem parseTimeTen : parseTimeToSeconds "10" = 10 := by
  have h : parseGoFloatRep "10" = some (10, 0) := by decide
  simp [parseTimeToSeconds, parseGoFloat, h]

/-- The timestamp parser on the plain number "5". -/
theorem parseTimeFive : parseTimeToSeconds "5" = 5 := by
  have h : parseGoFloatRep "5" = some (5, 0) := by decide
  simp [parseTimeToSeconds, parseGoFloat, h]

/-- Rounding 10 seconds to thousandths. -/
theorem round3_ten : round3 10 = 10000 := by
  unfold round3
  rw [if_neg (by norm_num)]
  apply Int.floor_eq_iff.mpr
  norm_num

/-- Rounding 5 seconds to thousandths. -/
theorem round3_five : round3 5 = 5000 := by
  unfold round3
  rw [if_neg (by norm_num)]
  apply Int.floor_eq_iff.mpr
  norm_num

/-- The fixed-point rendering of 10 seconds. -/
theorem fmtF3_ten : fmtF3 10 = "10.000" := by
  simp only [fmtF3, round3_ten]
  decide

/-- The fixed-point rendering of 5 seconds. -/
theorem fmtF3_five : fmtF3 5 = "5.000" := by
  simp only [fmtF3, round3_five]
  decide

/-- Concrete Configuration refuting the ordering part of C2: the mute
window runs from "10" down to "5". -/
def cfgC2 : Config :=
  ⟨"in.mp4", "out.mp4", 0, 0, "medium", 23, "10", "5", "", "", "", "", false, false⟩

/-- C2 counterexample: with mute-start "10" and mute-end "5" the
between filter token is still emitted, yet the parsed start is not
strictly less than the parsed end — the code never validates the
ordering of the mute window. -/
theorem muteWindow_order_counterexample :
    cfgC2.MuteStart ≠ "" ∧ cfgC2.MuteEnd ≠ "" ∧
    "volume=0:enable=\x27between(t,10.000,5.000)\x27" ∈ simpleCutArgs cfgC2 ∧
    ¬ parseTimeToSeconds cfgC2.MuteStart < parseTimeToSeconds cfgC2.MuteEnd := by
  have hfil : muteFilters cfgC2 =
      ["volume=0:enable=\x27between(t,10.000,5.000)\x27"] := by
    rw [muteFilters,
      if_pos (⟨by decide, by decide⟩ : cfgC2.MuteStart ≠ "" ∧ cfgC2.MuteEnd ≠ "")]
    rw [show cfgC2.MuteStart = "10" from rfl, show cfgC2.MuteEnd = "5" from rfl,
      parseTimeTen, parseTimeFive, fmtF3_ten, fmtF3_five]
    rfl
  refine ⟨by decide, by decide, ?_, ?_⟩
  · simp [simpleCutArgs, hfil, intercalateSingleton]
  · rw [show cfgC2.MuteStart = "10" from rfl, show cfgC2.MuteEnd = "5" from rfl,
      parseTimeTen, parseTimeFive]
    norm_num

/-- C2 amended: whenever both mute boundaries are non-empty, the
argument list contains the filter flag followed by a between token
built from the parsed second offsets of the two boundaries (the code
performs no comparison between the two offsets). -/
theorem muteWindow_filter_spec (cfg : Config)
    (h1 : cfg.MuteStart ≠ "") (h2 : cfg.MuteEnd ≠ "") :
    simpleCutArgs cfg = getInputArgs cfg ++
      ["-c:v", "libx264", "-preset", cfg.Preset, "-crf", toString cfg.CRF,
       "-c:a", "aac", "-b:a", "192k", "-af",
       "volume=0:enable=\x27between(t," ++ fmtF3 (parseTimeToSeconds cfg.MuteStart)
         ++ "," ++ fmtF3 (parseTimeToSeconds cfg.MuteEnd) ++ ")\x27",
       "-y", cfg.OutputFile] := by
  have hfil : muteFilters cfg =
      ["volume=0:enable=\x27between(t," ++ fmtF3 (parseTimeToSeconds cfg.MuteStart)
        ++ "," ++ fmtF3 (parseTimeToSeconds cfg.MuteEnd) ++ ")\x27"] := by
    rw [muteFilters, if_pos ⟨h1, h2⟩]
  simp [simpleCutArgs, hfil, intercalateSingleton]

/-- Witness for the amended C2 at the concrete Configuration. -/
theorem muteWindow_filter_spec_witness :
    simpleCutArgs cfgC2 = getInputArgs cfgC2 ++
      ["-c:v", "libx264", "-preset", cfgC2.Preset, "-crf", toString cfgC2.CRF,
       "-c:a", "aac", "-b:a", "192k", "-af",
       "volume=0:enable=\x27between(t,"
         ++ fmtF3 (parseTimeToSeconds cfgC2.MuteStart)
         ++ "," ++ fmtF3 (parseTimeToSeconds cfgC2.MuteEnd) ++ ")\x27",
       "-y", cfgC2.OutputFile] :=
  muteWindow_filter_spec cfgC2 (by decide) (by decide)

/-- The segment list parseTimeToSeconds sums over: the input split on
the colon (src/main.go line 217). -/
def timeSegments (ts : String) : List String :=
  (splitOnChar ':' ts.toList).map String.mk

/-- Indexing a reversed list from the front is indexing the original
list from the back. -/
theorem getD_reverse {α : Type} (l : List α) (d : α) (i : ℕ)
    (h : i < l.length) :
    l.reverse.getD i d = l.getD (l.length - 1 - i) d := by
  rw [List.getD_eq_getElem?_getD, List.getD_eq_getElem?_getD,
    List.getElem?_reverse h]

/-- The multiplier loop of parseTimeToSeconds computes the sum of the
segment values weighted by the powers of 60, scaled by the starting
multiplier. -/
theorem sumParts_eq (l : List String) :
    ∀ m : ℚ, sumParts l m =
      m * ∑ i in Finset.range l.length,
        ((parseGoFloat (l.getD i "")).getD 0) * 60 ^ i := by
  induction l with
  | nil => intro m; simp [sumParts]
  | cons p rest ih =>
    intro m
    simp only [sumParts, List.length_cons]
    rw [Finset.sum_range_succ', ih (m * 60)]
    simp only [List.getD_cons_succ, List.getD_cons_zero, pow_zero, mul_one,
      pow_succ]
    have hdist : ∑ i in Finset.range rest.length,
        ((parseGoFloat (rest.getD i "")).getD 0) * (60 ^ i * 60) =
        (∑ i in Finset.range rest.length,
          ((parseGoFloat (rest.getD i "")).getD 0) * 60 ^ i) * 60 := by
      rw [Finset.sum_mul]
      exact Finset.sum_congr rfl fun i _ => by ring
    rw [mul_add, hdist]
    ring

/-- C5: the timestamp parser is total; a string accepted as a plain
decimal number is returned unchanged, and otherwise the colon-split
segments are summed with the rightmost weighted by 1, the next by 60,
the next by 3600 and so on, an unparseable segment contributing zero. -/
theorem parseTime_contract (ts : String) :
    (∀ v, parseGoFloat ts = some v → parseTimeToSeconds ts = v) ∧
    (parseGoFloat ts = none →
      parseTimeToSeconds ts =
        ∑ i in Finset.range (timeSegments ts).length,
          ((parseGoFloat ((timeSegments ts).getD i "")).getD 0) *
            60 ^ ((timeSegments ts).length - 1 - i)) := by
  constructor
  · intro v hv
    simp [parseTimeToSeconds, hv]
  · intro hn
    simp only [parseTimeToSeconds, hn]
    show sumParts (timeSegments ts).reverse 1 = _
    rw [sumParts_eq, one_mul, List.length_reverse]
    conv_rhs => rw [← Finset.sum_range_reflect]
    apply Finset.sum_congr rfl
    intro i hi
    rw [Finset.mem_range] at hi
    rw [getD_reverse _ _ _ hi]
    have harith : (timeSegments ts).length - 1 -
        ((timeSegments ts).length - 1 - i) = i := by omega
    rw [harith]

/-- Witness for C5: the plain-number branch at "90" and the summation
branch at "1:02:03". -/
theorem parseTime_contract_witness :
    parseTimeToSeconds "90" = 90 ∧ parseTimeToSeconds "1:02:03" = 3723 := by
  constructor
  · have h : parseGoFloat "90" = some 90 := by
      have hr : parseGoFloatRep "90" = some (90, 0) := by decide
      simp [parseGoFloat, hr]
    exact (parseTime_contract "90").1 90 h
  · have hn : parseGoFloat "1:02:03" = none := by
      have hr : parseGoFloatRep "1:02:03" = none := by decide
      simp [parseGoFloat, hr]
    have h := (parseTime_contract "1:02:03").2 hn
    rw [h]
    have hseg : timeSegments "1:02:03" = ["1", "02", "03"] := by decide
    rw [hseg]
    have r1 : parseGoFloatRep "1" = some (1, 0) := by decide
    have r2 : parseGoFloatRep "02" = some (2, 0) := by decide
    have r3 : parseGoFloatRep "03" = some (3, 0) := by decide
    simp [Finset.sum_range_succ, parseGoFloat, r1, r2, r3]
    norm_num
